import Mathlib

/-!
Verification model of the shard-distributor coordination core:
the etcd-backed `Store` adapter (`service/sharddistributor/store/etcd/etcdstore.go`)
and the per-namespace leader `Elector`.

Strings are modelled as `List Char` (Go strings are byte sequences; every
operation the source performs on them — concatenation with `fmt.Sprintf`,
`strings.HasPrefix`, `strings.TrimPrefix`, `strings.Split` on "/" — is
defined below on character lists).  The etcd backend is modelled as an
association list of key/value pairs plus a revision counter; etcd returns
keys in sorted order, but every read below folds over the keys in a way
that is insensitive to their order because live keys are unique, so the
association list keeps insertion order.
-/

/-- Go strings, as character lists. -/
abbrev Str := List Char

/-- `strings.Split(s, "/")`: split on every '/' character.  On the empty
string Go returns a single empty field, matching the base case. -/
def splitOnSlash : Str → List Str
  | [] => [[]]
  | c :: rest =>
    let r := splitOnSlash rest
    if c = '/' then [] :: r
    else
      match r with
      | [] => [[c]]
      | s :: ss => (c :: s) :: ss

/-- `strings.HasPrefix(k, p)`: `p` is a leading segment of `k`. -/
def isPrefixL : Str → Str → Bool
  | [], _ => true
  | _ :: _, [] => false
  | c :: p, d :: k => c = d && isPrefixL p k

/-- Stored etcd values, tagged with the codec that produced the bytes.
The store writes decimal integers (heartbeat timestamps), raw strings
(executor state), and JSON-serialized maps (reported / assigned shards);
`vMalformed` stands for bytes that no codec of this store accepts.
Parsing a value with a codec other than the one that produced it fails,
which matches the byte-level behaviour on everything this store writes. -/
inductive EtcdValue where
  | vInt (n : Int)
  | vStr (s : Str)
  | vReported (m : List (Str × Str))
  | vAssigned (m : List (Str × Str))
  | vMalformed (s : Str)
deriving DecidableEq

/-- `strconv.ParseInt(value, 10, 64)` with the error discarded: a
non-integer value parses to 0 (Go's `ParseInt` returns 0 on a syntax
error, and both call sites ignore the error). -/
def parseInt64 : EtcdValue → Int
  | .vInt n => n
  | _ => 0

/-- The raw bytes of a value, as read by `store.ExecutorState(value)`.
Only `vStr` values ever reach that conversion in the modelled store; the
renderings of the other constructors are irrelevant to every code path. -/
def rawValue : EtcdValue → Str
  | .vInt n => (toString n).data
  | .vStr s => s
  | .vReported _ => []
  | .vAssigned _ => []
  | .vMalformed s => s

/-- `json.Unmarshal` into `map[string]store.ShardState`. -/
def unmarshalReported : EtcdValue → Option (List (Str × Str))
  | .vReported m => some m
  | _ => none

/-- `json.Unmarshal` into `map[string]store.ShardAssignment`. -/
def unmarshalAssigned : EtcdValue → Option (List (Str × Str))
  | .vAssigned m => some m
  | _ => none

/-- The etcd keyspace: an association list with unique live keys, plus the
header revision (bumped by every committed transaction). -/
structure EtcdState where
  kvs : List (Str × EtcdValue)
  rev : Int
deriving DecidableEq

/-- A put overwrites the previous binding of the key. -/
def putKV (kvs : List (Str × EtcdValue)) (k : Str) (v : EtcdValue) :
    List (Str × EtcdValue) :=
  (k, v) :: kvs.filter (fun kv => !decide (kv.1 = k))

/-- A prefix delete removes every key the prefix matches. -/
def delPfxKV (kvs : List (Str × EtcdValue)) (p : Str) :
    List (Str × EtcdValue) :=
  kvs.filter (fun kv => !(isPrefixL p kv.1))

/-- One operation of an etcd transaction's `Then` branch. -/
inductive EtcdOp where
  | put (k : Str) (v : EtcdValue)
  | delPfx (p : Str)
deriving DecidableEq

def applyOp (kvs : List (Str × EtcdValue)) : EtcdOp → List (Str × EtcdValue)
  | .put k v => putKV kvs k v
  | .delPfx p => delPfxKV kvs p

/-- Committing a transaction applies all of its operations atomically and
bumps the revision. -/
def commitTxn (e : EtcdState) (ops : List EtcdOp) : EtcdState :=
  { kvs := ops.foldl applyOp e.kvs, rev := e.rev + 1 }

-- sanity checks on the string model
example : splitOnSlash "a/b".data = ["a".data, "b".data] := by decide
example : splitOnSlash "ab".data = ["ab".data] := by decide
example : splitOnSlash "a//b".data = ["a".data, [], "b".data] := by decide
example : isPrefixL "ab".data "abc".data = true := by decide
example : isPrefixL "ab".data "a".data = false := by decide

/-! ## The etcd store adapter -/

/-- The four per-executor key names (`etcdstore.go` constants). -/
def heartbeatKeyName : Str := "heartbeat".data
def stateKeyName : Str := "state".data
def reportedShardsKeyName : Str := "reported_shards".data
def assignedShardsKeyName : Str := "assigned_shards".data

/-- The etcd-backed `Store`: its configured key-namespace root (`prefix`
field of the Go struct).  The etcd client itself is the explicit
`EtcdState` each operation takes and returns. -/
structure Store where
  pfx : Str
deriving DecidableEq

/-- `fmt.Sprintf("%s/%s", s.prefix, namespace)`. -/
def Store.buildNamespacePrefix (s : Store) (ns : Str) : Str :=
  s.pfx ++ ['/'] ++ ns

/-- `fmt.Sprintf("%s/executors/", s.buildNamespacePrefix(namespace))`. -/
def Store.buildExecutorPrefix (s : Store) (ns : Str) : Str :=
  s.buildNamespacePrefix ns ++ "/executors/".data

/-- `fmt.Sprintf("%s%s/%s", s.buildExecutorPrefix(namespace), executorID, keyType)`. -/
def Store.buildExecutorKey (s : Store) (ns eid keyType : Str) : Str :=
  s.buildExecutorPrefix ns ++ eid ++ ['/'] ++ keyType

/-- `parseExecutorKey`: strip the executor prefix, split the remainder on
'/' and require exactly two parts (executorID, keyType); `none` models the
returned error. -/
def Store.parseExecutorKey (s : Store) (ns key : Str) : Option (Str × Str) :=
  let p := s.buildExecutorPrefix ns
  if isPrefixL p key then
    match splitOnSlash (key.drop p.length) with
    | [a, b] => some (a, b)
    | _ => none
  else none

/-- `store.HeartbeatState`: the per-executor record an executor reports.
`State` is the raw `ExecutorState` string; `ReportedShards` maps shard IDs
to their (opaque) `ShardState` payloads. -/
structure HeartbeatState where
  ExecutorID : Str
  LastHeartbeat : Int
  State : Str
  ReportedShards : List (Str × Str)
deriving DecidableEq

/-- `store.AssignedState`: the per-executor record the leader writes. -/
structure AssignedState where
  ExecutorID : Str
  ReportedShards : List (Str × Str)
  AssignedShards : List (Str × Str)
deriving DecidableEq

/-- The typed errors the store operations return. -/
inductive StoreErr where
  /-- `store.ErrExecutorNotFound`. -/
  | executorNotFound
  /-- "unmarshal reported shards: …". -/
  | unmarshalReportedShards
  /-- "unmarshal assigned shards: …". -/
  | unmarshalAssignedShards
  /-- "apply transaction guard: …". -/
  | guardApplyFailed (msg : Str)
  /-- "guard function returned invalid transaction type". -/
  | invalidGuardTxnType
  /-- "transaction failed, leadership may have changed". -/
  | txnFailedLeadershipChanged
deriving DecidableEq

instance : DecidableEq (Except StoreErr HeartbeatState) :=
  fun a b =>
    match a, b with
    | .ok x, .ok y => decidable_of_iff (x = y) (by simp)
    | .error x, .error y => decidable_of_iff (x = y) (by simp)
    | .ok _, .error _ => isFalse (by simp)
    | .error _, .ok _ => isFalse (by simp)

/-- A `store.GuardFunc` as the adapter can observe it: it may fail to
apply, return a transaction of the wrong dynamic type, or attach the
leadership-validity condition, which the backend evaluates at commit time
to `succeeds`. -/
inductive GuardFunc where
  | applyFails (msg : Str)
  | wrongTxnType
  | cond (succeeds : Bool)
deriving DecidableEq

/-- The three operations of `RecordHeartbeat`'s transaction.  The request's
own `LastHeartbeat` field is ignored: the stored timestamp is the call
time `now` (`time.Now().Unix()` in the source). -/
def Store.recordHeartbeatOps (s : Store) (ns : Str) (now : Int)
    (req : HeartbeatState) : List EtcdOp :=
  [ .put (s.buildExecutorKey ns req.ExecutorID heartbeatKeyName) (.vInt now),
    .put (s.buildExecutorKey ns req.ExecutorID stateKeyName) (.vStr req.State),
    .put (s.buildExecutorKey ns req.ExecutorID reportedShardsKeyName)
      (.vReported req.ReportedShards) ]

/-- `RecordHeartbeat`: one transaction upserting timestamp, state and
reported shards.  `json.Marshal` of a `map[string]ShardState` cannot fail,
and the backend-I/O failure branch is outside the model (every claim
quantifies over successful backend commits), so the call always succeeds. -/
def Store.RecordHeartbeat (s : Store) (e : EtcdState) (ns : Str) (now : Int)
    (req : HeartbeatState) : EtcdState × Option StoreErr :=
  (commitTxn e (s.recordHeartbeatOps ns now req), none)

/-- One iteration of `GetHeartbeat`'s loop over the prefix read: the
accumulator is the partially filled state and the `found` flag. -/
def Store.ghbStep (s : Store) (ns : Str) (acc : HeartbeatState × Bool)
    (kv : Str × EtcdValue) : Except StoreErr (HeartbeatState × Bool) :=
  match s.parseExecutorKey ns kv.1 with
  | none => .ok acc
  | some (_, keyType) =>
    if keyType = heartbeatKeyName then
      .ok ({ acc.1 with LastHeartbeat := parseInt64 kv.2 }, true)
    else if keyType = stateKeyName then
      .ok ({ acc.1 with State := rawValue kv.2 }, true)
    else if keyType = reportedShardsKeyName then
      match unmarshalReported kv.2 with
      | some m => .ok ({ acc.1 with ReportedShards := m }, true)
      | none => .error .unmarshalReportedShards
    else
      .ok (acc.1, true)

def Store.ghbLoop (s : Store) (ns : Str) (acc : HeartbeatState × Bool) :
    List (Str × EtcdValue) → Except StoreErr (HeartbeatState × Bool)
  | [] => .ok acc
  | kv :: rest =>
    match s.ghbStep ns acc kv with
    | .error er => .error er
    | .ok acc' => s.ghbLoop ns acc' rest

/-- `GetHeartbeat`: prefix read over the executor's own keys, then the
field-filling loop; `ErrExecutorNotFound` when the read is empty or no
returned key parses. -/
def Store.GetHeartbeat (s : Store) (e : EtcdState) (ns eid : Str) :
    Except StoreErr HeartbeatState :=
  let p := s.buildExecutorKey ns eid []
  let resp := e.kvs.filter (fun kv => isPrefixL p kv.1)
  if resp.length = 0 then .error .executorNotFound
  else
    let init : HeartbeatState :=
      { ExecutorID := eid, LastHeartbeat := 0, State := [], ReportedShards := [] }
    match s.ghbLoop ns (init, false) resp with
    | .error er => .error er
    | .ok (st, found) => if found then .ok st else .error .executorNotFound

/-! ### Go maps, as association lists in insertion order -/

/-- `m[k]` (comma-ok form): `none` when the key is absent. -/
def alookup (m : List (Str × α)) (k : Str) : Option α :=
  match m with
  | [] => none
  | e :: rest => if e.1 = k then some e.2 else alookup rest k

/-- `m[k] = v`: overwrite in place, or append a new binding. -/
def aset (m : List (Str × α)) (k : Str) (v : α) : List (Str × α) :=
  match m with
  | [] => [(k, v)]
  | e :: rest => if e.1 = k then (k, v) :: rest else e :: aset rest k v

/-- The zero `HeartbeatState` entry GetState creates on first sight of an
executor. -/
def emptyHeartbeat (eid : Str) : HeartbeatState :=
  { ExecutorID := eid, LastHeartbeat := 0, State := [], ReportedShards := [] }

/-- The `AssignedState` entry GetState creates on first sight of an
executor: both maps initialized empty. -/
def emptyAssigned (eid : Str) : AssignedState :=
  { ExecutorID := eid, ReportedShards := [], AssignedShards := [] }

/-- The two `if _, ok := m[executorID]; !ok` blocks of `GetState`'s loop:
create the zero-valued entries on first sight of an executor. -/
def ensureEntries
    (acc : List (Str × HeartbeatState) × List (Str × AssignedState))
    (eid : Str) :
    List (Str × HeartbeatState) × List (Str × AssignedState) :=
  (if (alookup acc.1 eid).isNone then aset acc.1 eid (emptyHeartbeat eid) else acc.1,
   if (alookup acc.2 eid).isNone then aset acc.2 eid (emptyAssigned eid) else acc.2)

/-- One iteration of `GetState`'s loop: ensure both map entries exist,
then fill the field selected by the key type, writing both entries back. -/
def Store.gsStep (s : Store) (ns : Str)
    (acc : List (Str × HeartbeatState) × List (Str × AssignedState))
    (kv : Str × EtcdValue) :
    Except StoreErr (List (Str × HeartbeatState) × List (Str × AssignedState)) :=
  match s.parseExecutorKey ns kv.1 with
  | none => .ok acc
  | some (eid, keyType) =>
    let ens := ensureEntries acc eid
    let hb := (alookup ens.1 eid).getD (emptyHeartbeat eid)
    let asg := (alookup ens.2 eid).getD (emptyAssigned eid)
    if keyType = heartbeatKeyName then
      .ok (aset ens.1 eid { hb with LastHeartbeat := parseInt64 kv.2 }, aset ens.2 eid asg)
    else if keyType = stateKeyName then
      .ok (aset ens.1 eid { hb with State := rawValue kv.2 }, aset ens.2 eid asg)
    else if keyType = reportedShardsKeyName then
      match unmarshalReported kv.2 with
      | some m => .ok (aset ens.1 eid hb, aset ens.2 eid { asg with ReportedShards := m })
      | none => .error .unmarshalReportedShards
    else if keyType = assignedShardsKeyName then
      match unmarshalAssigned kv.2 with
      | some m => .ok (aset ens.1 eid hb, aset ens.2 eid { asg with AssignedShards := m })
      | none => .error .unmarshalAssignedShards
    else
      .ok (aset ens.1 eid hb, aset ens.2 eid asg)

def Store.gsLoop (s : Store) (ns : Str)
    (acc : List (Str × HeartbeatState) × List (Str × AssignedState)) :
    List (Str × EtcdValue) →
    Except StoreErr (List (Str × HeartbeatState) × List (Str × AssignedState))
  | [] => .ok acc
  | kv :: rest =>
    match s.gsStep ns acc kv with
    | .error er => .error er
    | .ok acc' => s.gsLoop ns acc' rest

/-- `GetState`: prefix read over the namespace's whole executor keyspace,
two maps built in one pass, plus the header revision observed at read
time. -/
def Store.GetState (s : Store) (e : EtcdState) (ns : Str) :
    Except StoreErr
      (List (Str × HeartbeatState) × List (Str × AssignedState) × Int) :=
  let resp := e.kvs.filter (fun kv => isPrefixL (s.buildExecutorPrefix ns) kv.1)
  match s.gsLoop ns ([], []) resp with
  | .error er => .error er
  | .ok (hbs, asgs) => .ok (hbs, asgs, e.rev)

/-! ### Subscribe: the significance filter and the coalescing channel -/

/-- One etcd watch event.  A put is a create (first write of the key) or a
modify (any further write, value-changing or not); a delete/expiry event
is neither. -/
structure WatchEvent where
  isCreate : Bool
  isModify : Bool
  key : Str
deriving DecidableEq

/-- The event-batch filter of `Subscribe`'s goroutine, with the loop's
early `break`: a delete/expiry event is significant; a create/modify whose
key parses to a type other than `heartbeat`/`assigned_shards` is
significant; unparseable keys are skipped. -/
def Store.isSignificantChange (s : Store) (ns : Str) : List WatchEvent → Bool
  | [] => false
  | ev :: rest =>
    if !ev.isCreate && !ev.isModify then true
    else
      match s.parseExecutorKey ns ev.key with
      | none => s.isSignificantChange ns rest
      | some (_, keyType) =>
        if keyType ≠ heartbeatKeyName ∧ keyType ≠ assignedShardsKeyName then true
        else s.isSignificantChange ns rest

/-- The watch events a transaction op generates, against the keyspace it
executes on: a put yields one create-or-modify event, a prefix delete one
delete event per removed key. -/
def opEvents (kvs : List (Str × EtcdValue)) : EtcdOp → List WatchEvent
  | .put k _ =>
    let had := kvs.any (fun kv => kv.1 == k)
    [{ isCreate := !had, isModify := had, key := k }]
  | .delPfx p =>
    (kvs.filter (fun kv => isPrefixL p kv.1)).map
      (fun kv => { isCreate := false, isModify := false, key := kv.1 })

/-- The event batch of a whole transaction (ops execute in order). -/
def txnEvents (kvs : List (Str × EtcdValue)) : List EtcdOp → List WatchEvent
  | [] => []
  | op :: rest => opEvents kvs op ++ txnEvents (applyOp kvs op) rest

/-- A watch response: a batch of events at a revision, or a watch error. -/
structure WatchResp where
  err : Bool
  events : List WatchEvent
  revision : Int
deriving DecidableEq

/-- The body of `Subscribe`'s goroutine over a sequence of watch
responses, with the single-slot channel as an `Option Int` accumulator:
delivering a revision first drains an undrained previous value (the
non-blocking `select` receive) and then sends, i.e. replaces the slot.
The loop returns — and the channel is closed — when the watch channel
ends (context cancellation) or a response carries an error; the remaining
responses are never read (no reconnect).  The result is the final
undrained slot content. -/
def Store.subscribeLoop (s : Store) (ns : Str) (slot : Option Int) :
    List WatchResp → Option Int
  | [] => slot
  | wr :: rest =>
    if wr.err then slot
    else if s.isSignificantChange ns wr.events then
      s.subscribeLoop ns (some wr.revision) rest
    else
      s.subscribeLoop ns slot rest

/-! ### Guarded mutations -/

/-- `AssignShards`: one put of the serialized `AssignedShards` per entry;
empty input returns before the guard is even applied; otherwise the
guarded transaction commits all puts or, when the leadership-validity
condition fails, nothing. -/
def Store.AssignShards (s : Store) (e : EtcdState) (ns : Str)
    (newState : List (Str × AssignedState)) (guard : GuardFunc) :
    EtcdState × Option StoreErr :=
  let ops := newState.map (fun p =>
    EtcdOp.put (s.buildExecutorKey ns p.1 assignedShardsKeyName)
      (.vAssigned p.2.AssignedShards))
  if ops.isEmpty then (e, none)
  else
    match guard with
    | .applyFails m => (e, some (.guardApplyFailed m))
    | .wrongTxnType => (e, some .invalidGuardTxnType)
    | .cond ok =>
      if ok then (commitTxn e ops, none)
      else (e, some .txnFailedLeadershipChanged)

/-- `DeleteExecutors`: empty input is a no-op success; otherwise one
prefix delete per executor, in one guarded transaction. -/
def Store.DeleteExecutors (s : Store) (e : EtcdState) (ns : Str)
    (executorIDs : List Str) (guard : GuardFunc) :
    EtcdState × Option StoreErr :=
  if executorIDs.isEmpty then (e, none)
  else
    let ops := executorIDs.map (fun eid =>
      EtcdOp.delPfx (s.buildExecutorPrefix ns ++ eid ++ ['/']))
    match guard with
    | .applyFails m => (e, some (.guardApplyFailed m))
    | .wrongTxnType => (e, some .invalidGuardTxnType)
    | .cond ok =>
      if ok then (commitTxn e ops, none)
      else (e, some .txnFailedLeadershipChanged)

/-! ## The Elector (leader-election state machine)

Modelled from the spec: the Elector implementation itself is not among the
repository files here — only its test file is — so `runElection` below is
a model of one leadership episode built from the spec's §4.3 state
machine, exercised against the behaviours the test file drives. -/

/-- The behaviour of the Processor the Elector supervises in one episode:
what `Run` and `Terminate` return (`none` = success, `some msg` = an error
with that text). -/
structure ProcBehavior where
  runErr : Option Str
  terminateErr : Option Str
deriving DecidableEq

/-- The behaviour of the Election handle in one episode. -/
structure ElecBehavior where
  campaignErr : Option Str
  resignErr : Option Str
deriving DecidableEq

/-- The three triggers that can end a Leading state: `Election.Done()`
firing, the `leaderPeriod` rotation timer elapsing, or caller context
cancellation. -/
inductive Trigger where
  | doneFired
  | leaderPeriodElapsed
  | ctxCanceled
deriving DecidableEq

/-- The externally observable actions of one `runElection` episode. -/
inductive EAction where
  | campaign
  | procRun
  | procTerminate
  | electionResign
  | emitLeader (b : Bool)
deriving DecidableEq

/-- Modelled from the spec: the error wrapping of an onLeader failure —
the original error text wrapped with an "onLeader" tag, so the surfaced
message contains both. -/
def onLeaderWrap (e : Str) : Str := "onLeader: ".data ++ e

/-- Modelled from the spec: one `runElection` leadership episode (§4.3).
Campaign failure yields no Leading episode (Cooldown, then re-campaign).
On campaign success the Processor runs; a `Run` error is an onLeader
failure: `Terminate`, then `Resign`, are still attempted before `false`
is emitted, and the surfaced error is the wrapped original.  On a `Run`
success, `true` is emitted, the episode waits for the first of the three
triggers, and then — for every trigger alike — `Terminate` is attempted
before `Resign`; failures of either are recorded but suppress neither the
remaining shutdown steps nor the final `false` emission. -/
def runElection (pb : ProcBehavior) (eb : ElecBehavior) (trigger : Trigger) :
    List EAction × Option Str :=
  match eb.campaignErr with
  | some e => ([.campaign], some e)
  | none =>
    match pb.runErr with
    | some e =>
      ([.campaign, .procRun, .procTerminate, .electionResign, .emitLeader false],
       some (onLeaderWrap e))
    | none =>
      match trigger with
      | _ =>
        ([.campaign, .procRun, .emitLeader true, .procTerminate,
          .electionResign, .emitLeader false], none)

/-- Modelled from the spec: after the episode, the Elector stops (channel
closed) exactly when the terminating cause was context cancellation;
otherwise it loops back to contend again. -/
def electorStopsAfter : Trigger → Bool
  | .ctxCanceled => true
  | _ => false

/-- `hay` contains `needle` as a contiguous substring. -/
def containsStr (hay needle : Str) : Prop := ∃ l r, hay = l ++ needle ++ r

/-! ## Helper lemmas: strings and keys -/

theorem isPrefixL_append (p r : Str) : isPrefixL p (p ++ r) = true := by
  induction p with
  | nil => rfl
  | cons c p ih => simp [isPrefixL, ih]

theorem isPrefixL_iff (p k : Str) : isPrefixL p k = true ↔ ∃ r, k = p ++ r := by
  constructor
  · intro h
    induction p generalizing k with
    | nil => exact ⟨k, rfl⟩
    | cons c p ih =>
      cases k with
      | nil => simp [isPrefixL] at h
      | cons d k =>
        simp only [isPrefixL, Bool.and_eq_true, decide_eq_true_eq] at h
        obtain ⟨r, hr⟩ := ih k h.2
        exact ⟨r, by simp [h.1, hr]⟩
  · rintro ⟨r, rfl⟩
    exact isPrefixL_append p r

theorem splitOnSlash_no_slash (s : Str) (h : '/' ∉ s) : splitOnSlash s = [s] := by
  induction s with
  | nil => rfl
  | cons c s ih =>
    have hc : c ≠ '/' := fun hc => h (hc ▸ List.mem_cons_self c s)
    have hs : '/' ∉ s := fun hs => h (List.mem_cons_of_mem c hs)
    simp [splitOnSlash, hc, ih hs]

theorem splitOnSlash_ne_nil (s : Str) : splitOnSlash s ≠ [] := by
  induction s with
  | nil => simp [splitOnSlash]
  | cons c s ih =>
    simp only [splitOnSlash]
    split
    · simp
    · cases hs : splitOnSlash s with
      | nil => exact absurd hs ih
      | cons a as => simp [hs]

theorem splitOnSlash_append_slash (a r : Str) (h : '/' ∉ a) :
    splitOnSlash (a ++ '/' :: r) = a :: splitOnSlash r := by
  induction a with
  | nil => simp [splitOnSlash]
  | cons c a ih =>
    have hc : c ≠ '/' := fun hc => h (hc ▸ List.mem_cons_self c a)
    have ha : '/' ∉ a := fun ha => h (List.mem_cons_of_mem c ha)
    simp only [List.cons_append, splitOnSlash, List.append_eq, ih ha, if_neg hc]

theorem splitOnSlash_eq_single (s x : Str) (h : splitOnSlash s = [x]) :
    s = x ∧ '/' ∉ s := by
  induction s generalizing x with
  | nil =>
    simp only [splitOnSlash, List.cons.injEq] at h
    exact ⟨h.1, by simp⟩
  | cons c s ih =>
    simp only [splitOnSlash] at h
    by_cases hc : c = '/'
    · rw [if_pos hc] at h
      simp only [List.cons.injEq] at h
      exact absurd h.2 (splitOnSlash_ne_nil s)
    · rw [if_neg hc] at h
      cases hs : splitOnSlash s with
      | nil => exact absurd hs (splitOnSlash_ne_nil s)
      | cons a as =>
        rw [hs] at h
        simp only [List.cons.injEq] at h
        obtain ⟨h1, h2⟩ := h
        subst h2
        obtain ⟨rfl, hns⟩ := ih a hs
        refine ⟨h1, ?_⟩
        intro hm
        rcases List.mem_cons.mp hm with h | h
        · exact hc h.symm
        · exact hns h

/-- `parseExecutorKey` on a key that extends the executor keyspace root:
the prefix check passes and the remainder is split. -/
theorem parseExecutorKey_append (s : Store) (ns rest : Str) :
    s.parseExecutorKey ns (s.buildExecutorPrefix ns ++ rest) =
      (match splitOnSlash rest with
       | [a, b] => some (a, b)
       | _ => none) := by
  simp only [Store.parseExecutorKey, isPrefixL_append, if_true, List.drop_left]

/-- The store-built executor key in executor-keyspace-root ++ remainder
form. -/
theorem buildExecutorKey_eq (s : Store) (ns eid kt : Str) :
    s.buildExecutorKey ns eid kt = s.buildExecutorPrefix ns ++ (eid ++ '/' :: kt) := by
  simp [Store.buildExecutorKey]

/-- Parsing a key the store itself built gives back its parts, provided
executor ID and key type contain no '/'. -/
theorem parse_buildExecutorKey (s : Store) (ns eid kt : Str)
    (heid : '/' ∉ eid) (hkt : '/' ∉ kt) :
    s.parseExecutorKey ns (s.buildExecutorKey ns eid kt) = some (eid, kt) := by
  rw [buildExecutorKey_eq, parseExecutorKey_append,
    splitOnSlash_append_slash eid kt heid, splitOnSlash_no_slash kt hkt]

/-- Any key under one executor's own prefix that parses at all parses to
that executor, and is the store-built key of its key type. -/
theorem parse_under_executor (s : Store) (ns eid k a b : Str)
    (heid : '/' ∉ eid)
    (hpfx : isPrefixL (s.buildExecutorKey ns eid []) k = true)
    (hparse : s.parseExecutorKey ns k = some (a, b)) :
    a = eid ∧ '/' ∉ b ∧ k = s.buildExecutorKey ns eid b := by
  obtain ⟨r, hk⟩ := (isPrefixL_iff _ _).mp hpfx
  have hk' : k = s.buildExecutorPrefix ns ++ (eid ++ '/' :: r) := by
    simpa [Store.buildExecutorKey] using hk
  rw [hk', parseExecutorKey_append,
    splitOnSlash_append_slash eid r heid] at hparse
  cases hr : splitOnSlash r with
  | nil => exact absurd hr (splitOnSlash_ne_nil r)
  | cons x xs =>
    rw [hr] at hparse
    cases xs with
    | nil =>
      simp only [Option.some.injEq, Prod.mk.injEq] at hparse
      obtain ⟨ha, hb⟩ := hparse
      obtain ⟨hrx, hnr⟩ := splitOnSlash_eq_single r x hr
      subst ha
      subst hb
      subst hrx
      exact ⟨rfl, hnr, by rw [buildExecutorKey_eq]; exact hk'⟩
    | cons y ys => simp at hparse

/-! ## Claim theorems -/

/-- **C8**: for every namespace and guard, `AssignShards` with an empty
`newState` map (each entry would contribute exactly one put, so the
no-operations case is the empty map) and `DeleteExecutors` with an empty
`executorIDs` list return success, consult no guard, commit no
transaction, and leave the backend state — keys and revision — entirely
unchanged. -/
theorem emptyInput_noop (s : Store) (e : EtcdState) (ns : Str) (guard : GuardFunc) :
    s.AssignShards e ns [] guard = (e, none) ∧
    s.DeleteExecutors e ns [] guard = (e, none) := by
  constructor <;> rfl

/-- **C1**: `AssignShards` or `DeleteExecutors` with non-empty input under
a guard whose leadership-validity precondition fails at commit time
applies no writes — the full state, hence any `GetState` snapshot, is
identical before and after — and returns the leadership-lost error. -/
theorem guardFail_noWrites (s : Store) (e : EtcdState) (ns : Str)
    (newState : List (Str × AssignedState)) (executorIDs : List Str)
    (h1 : newState ≠ []) (h2 : executorIDs ≠ []) :
    ((s.AssignShards e ns newState (.cond false)).1 = e ∧
     (s.AssignShards e ns newState (.cond false)).2 =
       some .txnFailedLeadershipChanged ∧
     ∀ ns', s.GetState (s.AssignShards e ns newState (.cond false)).1 ns' =
       s.GetState e ns') ∧
    ((s.DeleteExecutors e ns executorIDs (.cond false)).1 = e ∧
     (s.DeleteExecutors e ns executorIDs (.cond false)).2 =
       some .txnFailedLeadershipChanged ∧
     ∀ ns', s.GetState (s.DeleteExecutors e ns executorIDs (.cond false)).1 ns' =
       s.GetState e ns') := by
  obtain ⟨a, newState, rfl⟩ := List.exists_cons_of_ne_nil h1
  obtain ⟨b, executorIDs, rfl⟩ := List.exists_cons_of_ne_nil h2
  refine ⟨⟨?_, ?_, fun ns' => ?_⟩, ⟨?_, ?_, fun ns' => ?_⟩⟩ <;>
    simp [Store.AssignShards, Store.DeleteExecutors, List.isEmpty]

/-- **C1 witness**: a concrete one-executor assignment and a one-executor
deletion under a failed guard. -/
theorem guardFail_noWrites_witness :
    (((Store.mk "p".data).AssignShards ⟨[], 7⟩ "n".data
        [("e1".data, ⟨"e1".data, [], [("s1".data, "a".data)]⟩)] (.cond false)).1 =
          ⟨[], 7⟩ ∧
     ((Store.mk "p".data).AssignShards ⟨[], 7⟩ "n".data
        [("e1".data, ⟨"e1".data, [], [("s1".data, "a".data)]⟩)] (.cond false)).2 =
       some .txnFailedLeadershipChanged ∧
     ∀ ns', (Store.mk "p".data).GetState
         (((Store.mk "p".data).AssignShards ⟨[], 7⟩ "n".data
            [("e1".data, ⟨"e1".data, [], [("s1".data, "a".data)]⟩)] (.cond false)).1)
         ns' =
       (Store.mk "p".data).GetState ⟨[], 7⟩ ns') ∧
    (((Store.mk "p".data).DeleteExecutors ⟨[], 7⟩ "n".data ["e1".data]
        (.cond false)).1 = ⟨[], 7⟩ ∧
     ((Store.mk "p".data).DeleteExecutors ⟨[], 7⟩ "n".data ["e1".data]
        (.cond false)).2 = some .txnFailedLeadershipChanged ∧
     ∀ ns', (Store.mk "p".data).GetState
         (((Store.mk "p".data).DeleteExecutors ⟨[], 7⟩ "n".data ["e1".data]
            (.cond false)).1) ns' =
       (Store.mk "p".data).GetState ⟨[], 7⟩ ns') :=
  guardFail_noWrites (Store.mk "p".data) ⟨[], 7⟩ "n".data _ _
    (by decide) (by decide)

/-- **C6**: the `Subscribe` channel is single-slot and coalescing — two
significant responses with no consumer read in between leave the second's
revision in the slot, replacing (not queueing behind) the first; an
insignificant response delivers nothing; a watch error ends the loop with
the remaining responses never read (the channel closes and is never
reconnected), as does the end of the watch stream (context end). -/
theorem subscribe_singleSlot_coalescing (s : Store) (ns : Str)
    (slot : Option Int) (w1 w2 w : WatchResp) (rest : List WatchResp)
    (h1 : w1.err = false) (h2 : w2.err = false)
    (hs1 : s.isSignificantChange ns w1.events = true)
    (hs2 : s.isSignificantChange ns w2.events = true)
    (hw : w.err = true) :
    s.subscribeLoop ns slot (w1 :: w2 :: rest) =
      s.subscribeLoop ns (some w2.revision) rest ∧
    (s.isSignificantChange ns w1.events = false →
      s.subscribeLoop ns slot (w1 :: rest) = s.subscribeLoop ns slot rest) ∧
    s.subscribeLoop ns slot (w :: rest) = slot ∧
    s.subscribeLoop ns slot [] = slot := by
  refine ⟨?_, ?_, ?_, rfl⟩
  · simp [Store.subscribeLoop, h1, h2, hs1, hs2]
  · intro hns
    simp [Store.subscribeLoop, h1, hns]
  · simp [Store.subscribeLoop, hw]

/-- **C6 witness**: two significant one-event delete batches at revisions
5 and 6 coalesce to 6; an erroring response at the head freezes the slot. -/
theorem subscribe_singleSlot_coalescing_witness :
    ((Store.mk "p".data).subscribeLoop "n".data none
        [⟨false, [⟨false, false, "k".data⟩], 5⟩,
         ⟨false, [⟨false, false, "k".data⟩], 6⟩] =
      (Store.mk "p".data).subscribeLoop "n".data (some 6) [] ∧
     ((Store.mk "p".data).isSignificantChange "n".data
         [(⟨false, false, "k".data⟩ : WatchEvent)] = false →
       (Store.mk "p".data).subscribeLoop "n".data none
           [⟨false, [⟨false, false, "k".data⟩], 5⟩] =
         (Store.mk "p".data).subscribeLoop "n".data none []) ∧
     (Store.mk "p".data).subscribeLoop "n".data none
         [⟨true, [], 9⟩] = none ∧
     (Store.mk "p".data).subscribeLoop "n".data none [] = none) :=
  subscribe_singleSlot_coalescing (Store.mk "p".data) "n".data none
    ⟨false, [⟨false, false, "k".data⟩], 5⟩
    ⟨false, [⟨false, false, "k".data⟩], 6⟩
    ⟨true, [], 9⟩ [] rfl rfl (by decide) (by decide) rfl

/-- **C4** (spec-modelled Elector): when `Processor.Run` fails, the
episode still performs `Terminate` and then `Resign` before emitting
`false` on the leadership channel, and the surfaced error is the original
error wrapped with the "onLeader" tag — its text contains both "onLeader"
and the original error text. -/
theorem elector_onLeaderFailure (pb : ProcBehavior) (eb : ElecBehavior)
    (tr : Trigger) (msg : Str)
    (hc : eb.campaignErr = none) (hr : pb.runErr = some msg) :
    runElection pb eb tr =
      ([.campaign, .procRun, .procTerminate, .electionResign, .emitLeader false],
       some (onLeaderWrap msg)) ∧
    containsStr (onLeaderWrap msg) "onLeader".data ∧
    containsStr (onLeaderWrap msg) msg := by
  refine ⟨?_, ⟨[], ": ".data ++ msg, ?_⟩, ⟨"onLeader: ".data, [], ?_⟩⟩
  · simp [runElection, hc, hr]
  · simp [onLeaderWrap]
  · simp [onLeaderWrap]

/-- **C4 witness**: the test's scenario — `Run` fails with "leader error". -/
theorem elector_onLeaderFailure_witness :
    (runElection ⟨some "leader error".data, none⟩ ⟨none, none⟩ .doneFired =
      ([.campaign, .procRun, .procTerminate, .electionResign, .emitLeader false],
       some (onLeaderWrap "leader error".data)) ∧
     containsStr (onLeaderWrap "leader error".data) "onLeader".data ∧
     containsStr (onLeaderWrap "leader error".data) "leader error".data) :=
  elector_onLeaderFailure ⟨some "leader error".data, none⟩ ⟨none, none⟩
    .doneFired "leader error".data rfl rfl

/-- **C5** (spec-modelled Elector): in every leadership episode whose
campaign succeeded — whatever trigger ends the Leading state, and whether
`Run`, `Terminate` or `Resign` fail — the episode ends with exactly the
suffix `Terminate`, `Resign`, `emit false`: `Terminate` is attempted
before `Resign`, `false` is emitted exactly once and only after both, and
`true` is emitted at most once, before `Terminate`. -/
theorem elector_terminateBeforeResign (pb : ProcBehavior) (eb : ElecBehavior)
    (tr : Trigger) (hc : eb.campaignErr = none) :
    ∃ pre, (runElection pb eb tr).1 =
        pre ++ [.procTerminate, .electionResign, .emitLeader false] ∧
      EAction.procTerminate ∉ pre ∧
      EAction.electionResign ∉ pre ∧
      EAction.emitLeader false ∉ pre ∧
      pre.count (EAction.emitLeader true) ≤ 1 := by
  cases hr : pb.runErr with
  | some msg =>
    refine ⟨[.campaign, .procRun], ?_, ?_, ?_, ?_, ?_⟩ <;>
      simp [runElection, hc, hr, List.count_cons]
  | none =>
    refine ⟨[.campaign, .procRun, .emitLeader true], ?_, ?_, ?_, ?_, ?_⟩ <;>
      simp [runElection, hc, hr, List.count_cons]

/-- **C5 witness**: a rotation-ended successful episode with a failing
`Resign`. -/
theorem elector_terminateBeforeResign_witness :
    ∃ pre, (runElection ⟨none, none⟩ ⟨none, some "resign error".data⟩
        .leaderPeriodElapsed).1 =
        pre ++ [.procTerminate, .electionResign, .emitLeader false] ∧
      EAction.procTerminate ∉ pre ∧
      EAction.electionResign ∉ pre ∧
      EAction.emitLeader false ∉ pre ∧
      pre.count (EAction.emitLeader true) ≤ 1 :=
  elector_terminateBeforeResign ⟨none, none⟩ ⟨none, some "resign error".data⟩
    .leaderPeriodElapsed rfl

/-- Key types have no '/' in them. -/
theorem keyNames_no_slash :
    '/' ∉ heartbeatKeyName ∧ '/' ∉ stateKeyName ∧
    '/' ∉ reportedShardsKeyName ∧ '/' ∉ assignedShardsKeyName := by decide

/-- **C2 counterexample**: a `RecordHeartbeat` whose state and
reported-shards values are byte-identical to what is already stored — it
changes only the timestamp — still produces a significant watch batch,
i.e. a `Subscribe` emission: the filter classifies events by key type
alone, and the heartbeat transaction always rewrites the `state` and
`reported_shards` keys. -/
theorem heartbeatRefresh_emits_counterexample :
    (alookup ((Store.mk "p".data).RecordHeartbeat ⟨[], 0⟩ "n".data 1
        ⟨"e".data, 0, "A".data, [("s1".data, "r".data)]⟩).1.kvs
        ((Store.mk "p".data).buildExecutorKey "n".data "e".data stateKeyName) =
      some (.vStr "A".data) ∧
     alookup ((Store.mk "p".data).RecordHeartbeat ⟨[], 0⟩ "n".data 1
        ⟨"e".data, 0, "A".data, [("s1".data, "r".data)]⟩).1.kvs
        ((Store.mk "p".data).buildExecutorKey "n".data "e".data
          reportedShardsKeyName) =
      some (.vReported [("s1".data, "r".data)])) ∧
    (Store.mk "p".data).isSignificantChange "n".data
      (txnEvents ((Store.mk "p".data).RecordHeartbeat ⟨[], 0⟩ "n".data 1
          ⟨"e".data, 0, "A".data, [("s1".data, "r".data)]⟩).1.kvs
        ((Store.mk "p".data).recordHeartbeatOps "n".data 2
          ⟨"e".data, 0, "A".data, [("s1".data, "r".data)]⟩)) = true := by
  refine ⟨⟨?_, ?_⟩, ?_⟩ <;> decide

/-- **C2 amended**: the filter works at key granularity.  (a) Every
`RecordHeartbeat` — timestamp-only refresh or not — produces an emission,
because it rewrites the `state` and `reported_shards` keys and any
create/modify of those key types is significant (so in particular a
`ReportedShards` change produces one); (b) any delete/expiry event (an
executor deletion) produces one; (c) only batches confined to
create/modify events of the `heartbeat` and `assigned_shards` keys —
e.g. the leader's own assigned-shards writes — produce none. -/
theorem subscribe_significance_byKeyType (s : Store) (ns : Str) (e : EtcdState)
    (now : Int) (req : HeartbeatState) (heid : '/' ∉ req.ExecutorID) :
    s.isSignificantChange ns
      (txnEvents e.kvs (s.recordHeartbeatOps ns now req)) = true ∧
    (∀ (ev : WatchEvent) (rest : List WatchEvent),
      ev.isCreate = false → ev.isModify = false →
      s.isSignificantChange ns (ev :: rest) = true) ∧
    (∀ events : List WatchEvent,
      (∀ ev ∈ events, (ev.isCreate = true ∨ ev.isModify = true) ∧
        ∃ a, s.parseExecutorKey ns ev.key = some (a, heartbeatKeyName) ∨
          s.parseExecutorKey ns ev.key = some (a, assignedShardsKeyName)) →
      s.isSignificantChange ns events = false) := by
  refine ⟨?_, ?_, ?_⟩
  · have h1 := parse_buildExecutorKey s ns req.ExecutorID heartbeatKeyName heid
      keyNames_no_slash.1
    have h2 := parse_buildExecutorKey s ns req.ExecutorID stateKeyName heid
      keyNames_no_slash.2.1
    have hne : stateKeyName ≠ heartbeatKeyName ∧ stateKeyName ≠ assignedShardsKeyName := by
      decide
    simp only [Store.recordHeartbeatOps, txnEvents, opEvents,
      Store.isSignificantChange, List.cons_append, List.nil_append, h1, h2]
    cases hh : e.kvs.any
        (fun kv => kv.1 == s.buildExecutorKey ns req.ExecutorID heartbeatKeyName) <;>
      cases hs : (applyOp e.kvs
            (.put (s.buildExecutorKey ns req.ExecutorID heartbeatKeyName)
              (.vInt now))).any
          (fun kv => kv.1 == s.buildExecutorKey ns req.ExecutorID stateKeyName) <;>
      simp [Store.isSignificantChange, h1, h2, hne]
  · intro ev rest hc hm
    simp [Store.isSignificantChange, hc, hm]
  · intro events hall
    induction events with
    | nil => rfl
    | cons ev rest ih =>
      obtain ⟨hcm, a, hp⟩ := hall ev (List.mem_cons_self ev rest)
      have hrest : ∀ x ∈ rest, (x.isCreate = true ∨ x.isModify = true) ∧
          ∃ a, s.parseExecutorKey ns x.key = some (a, heartbeatKeyName) ∨
            s.parseExecutorKey ns x.key = some (a, assignedShardsKeyName) :=
        fun x hx => hall x (List.mem_cons_of_mem ev hx)
      have hnotdel : (!ev.isCreate && !ev.isModify) = false := by
        rcases hcm with h | h <;> simp [h]
      rcases hp with h | h <;>
        simp [Store.isSignificantChange, hnotdel, h, ih hrest]

/-- **C2 amended witness**: concrete instantiation of the key-granularity
characterization. -/
theorem subscribe_significance_byKeyType_witness :
    '/' ∉ "e".data ∧
    ((Store.mk "p".data).isSignificantChange "n".data
      (txnEvents (⟨[], 0⟩ : EtcdState).kvs
        ((Store.mk "p".data).recordHeartbeatOps "n".data 5
          ⟨"e".data, 0, "A".data, []⟩)) = true ∧
    (∀ (ev : WatchEvent) (rest : List WatchEvent),
      ev.isCreate = false → ev.isModify = false →
      (Store.mk "p".data).isSignificantChange "n".data (ev :: rest) = true) ∧
    (∀ events : List WatchEvent,
      (∀ ev ∈ events, (ev.isCreate = true ∨ ev.isModify = true) ∧
        ∃ a, (Store.mk "p".data).parseExecutorKey "n".data ev.key =
            some (a, heartbeatKeyName) ∨
          (Store.mk "p".data).parseExecutorKey "n".data ev.key =
            some (a, assignedShardsKeyName)) →
      (Store.mk "p".data).isSignificantChange "n".data events = false)) :=
  ⟨by decide, subscribe_significance_byKeyType (Store.mk "p".data) "n".data
    ⟨[], 0⟩ 5 ⟨"e".data, 0, "A".data, []⟩ (by decide)⟩

/-! ### Last-write-wins machinery for RecordHeartbeat / GetHeartbeat -/

/-- The keys `RecordHeartbeat` for executor `eid` does not touch. -/
def otherKey (s : Store) (ns eid : Str) (kv : Str × EtcdValue) : Bool :=
  !decide (kv.1 = s.buildExecutorKey ns eid reportedShardsKeyName) &&
  (!decide (kv.1 = s.buildExecutorKey ns eid stateKeyName) &&
   !decide (kv.1 = s.buildExecutorKey ns eid heartbeatKeyName))

/-- Two store-built keys of one executor with equal bytes have equal key
types. -/
theorem buildExecutorKey_type_inj (s : Store) (ns eid : Str) {k1 k2 : Str}
    (h : s.buildExecutorKey ns eid k1 = s.buildExecutorKey ns eid k2) :
    k1 = k2 := by
  unfold Store.buildExecutorKey at h
  exact List.append_cancel_left h

/-- Any composition of the three per-key filters equals the `otherKey`
filter. -/
theorem filter_congr_otherKey (s : Store) (ns eid : Str)
    (l : List (Str × EtcdValue)) (p : Str × EtcdValue → Bool)
    (hp : ∀ a, p a = (!decide (a.1 = s.buildExecutorKey ns eid reportedShardsKeyName) &&
      !decide (a.1 = s.buildExecutorKey ns eid stateKeyName) &&
      !decide (a.1 = s.buildExecutorKey ns eid heartbeatKeyName)) ∨
      p a = (!decide (a.1 = s.buildExecutorKey ns eid heartbeatKeyName) &&
      (!decide (a.1 = s.buildExecutorKey ns eid reportedShardsKeyName) &&
      !decide (a.1 = s.buildExecutorKey ns eid stateKeyName)))) :
    l.filter p = l.filter (otherKey s ns eid) := by
  apply List.filter_congr
  intro a _
  rcases hp a with h | h <;> rw [h] <;>
    cases h1 : decide (a.1 = s.buildExecutorKey ns eid heartbeatKeyName) <;>
    cases h2 : decide (a.1 = s.buildExecutorKey ns eid stateKeyName) <;>
    cases h3 : decide (a.1 = s.buildExecutorKey ns eid reportedShardsKeyName) <;>
      simp [otherKey, h1, h2, h3]

/-- The keyspace right after one `RecordHeartbeat`: the executor's three
keys hold exactly the request's values, everything else is untouched. -/
theorem recordHeartbeat_kvs (s : Store) (ns : Str) (e : EtcdState) (now : Int)
    (req : HeartbeatState) :
    (s.RecordHeartbeat e ns now req).1.kvs =
      (s.buildExecutorKey ns req.ExecutorID reportedShardsKeyName,
        .vReported req.ReportedShards) ::
      (s.buildExecutorKey ns req.ExecutorID stateKeyName, .vStr req.State) ::
      (s.buildExecutorKey ns req.ExecutorID heartbeatKeyName, .vInt now) ::
      e.kvs.filter (otherKey s ns req.ExecutorID) := by
  have hsr : s.buildExecutorKey ns req.ExecutorID stateKeyName ≠
      s.buildExecutorKey ns req.ExecutorID reportedShardsKeyName := by
    intro h; exact absurd (buildExecutorKey_type_inj s ns req.ExecutorID h) (by decide)
  have hhr : s.buildExecutorKey ns req.ExecutorID heartbeatKeyName ≠
      s.buildExecutorKey ns req.ExecutorID reportedShardsKeyName := by
    intro h; exact absurd (buildExecutorKey_type_inj s ns req.ExecutorID h) (by decide)
  have hhs : s.buildExecutorKey ns req.ExecutorID heartbeatKeyName ≠
      s.buildExecutorKey ns req.ExecutorID stateKeyName := by
    intro h; exact absurd (buildExecutorKey_type_inj s ns req.ExecutorID h) (by decide)
  simp only [Store.RecordHeartbeat, commitTxn, Store.recordHeartbeatOps,
    List.foldl_cons, List.foldl_nil, applyOp, putKV]
  simp [hsr, hhr, hhs]
  rfl

/-- Filtering the post-heartbeat keyspace down to the untouched keys gives
back the untouched keys of the previous state. -/
theorem recordHeartbeat_kvs_otherKey (s : Store) (ns : Str) (e : EtcdState)
    (now : Int) (req : HeartbeatState) :
    ((s.RecordHeartbeat e ns now req).1.kvs).filter
        (otherKey s ns req.ExecutorID) =
      e.kvs.filter (otherKey s ns req.ExecutorID) := by
  rw [recordHeartbeat_kvs]
  rw [List.filter_cons_of_neg, List.filter_cons_of_neg, List.filter_cons_of_neg]
  · rw [List.filter_filter]
    apply List.filter_congr
    intro a _
    cases h1 : otherKey s ns req.ExecutorID a <;> simp [h1]
  · simp [otherKey]
  · simp [otherKey]
  · simp [otherKey]

/-- Sequential heartbeats, as a driver loop issues them: each call takes
the state the previous one produced. -/
def runHeartbeats (s : Store) (ns : Str) :
    EtcdState → List (Int × HeartbeatState) → EtcdState
  | e, [] => e
  | e, (now, req) :: rest =>
    runHeartbeats s ns (s.RecordHeartbeat e ns now req).1 rest

/-- After `N ≥ 1` sequential heartbeats of one executor, the keyspace holds
the last call's three values plus the untouched keys. -/
theorem runHeartbeats_kvs (s : Store) (ns eid : Str) (e : EtcdState)
    (reqs : List (Int × HeartbeatState)) (lastT : Int) (lastReq : HeartbeatState)
    (hall : ∀ r ∈ reqs, r.2.ExecutorID = eid)
    (hlast : reqs.getLast? = some (lastT, lastReq)) :
    (runHeartbeats s ns e reqs).kvs =
      (s.buildExecutorKey ns eid reportedShardsKeyName,
        .vReported lastReq.ReportedShards) ::
      (s.buildExecutorKey ns eid stateKeyName, .vStr lastReq.State) ::
      (s.buildExecutorKey ns eid heartbeatKeyName, .vInt lastT) ::
      e.kvs.filter (otherKey s ns eid) := by
  induction reqs generalizing e with
  | nil => simp at hlast
  | cons x rest ih =>
    obtain ⟨t, r⟩ := x
    have hid : r.ExecutorID = eid := hall (t, r) (List.mem_cons_self _ _)
    cases rest with
    | nil =>
      simp only [List.getLast?, Option.some.injEq, Prod.mk.injEq] at hlast
      obtain ⟨rfl, rfl⟩ := hlast
      simp only [runHeartbeats]
      rw [recordHeartbeat_kvs, hid]
    | cons y t2 =>
      rw [List.getLast?_cons_cons] at hlast
      have hstep : runHeartbeats s ns e ((t, r) :: y :: t2) =
          runHeartbeats s ns (s.RecordHeartbeat e ns t r).1 (y :: t2) := rfl
      rw [hstep, ih _ (fun q hq => hall q (List.mem_cons_of_mem _ hq)) hlast]
      have h3 := recordHeartbeat_kvs_otherKey s ns e t r
      rw [hid] at h3
      rw [h3]

/-- Every store-built key of an executor lies under that executor's own
prefix (`buildExecutorKey ns eid ""`). -/
theorem isPrefixL_ownKey (s : Store) (ns eid kt : Str) :
    isPrefixL (s.buildExecutorKey ns eid []) (s.buildExecutorKey ns eid kt) = true := by
  have h : s.buildExecutorKey ns eid kt = s.buildExecutorKey ns eid [] ++ kt := by
    simp [Store.buildExecutorKey]
  rw [h]
  exact isPrefixL_append _ _

/-- `GetHeartbeat`'s loop ignores keys whose type is none of the three it
fills: the accumulator survives untouched, with the found flag already
set. -/
theorem ghbLoop_irrelevant (s : Store) (ns : Str) (st : HeartbeatState)
    (l : List (Str × EtcdValue))
    (h : ∀ kv ∈ l, ∀ a b, s.parseExecutorKey ns kv.1 = some (a, b) →
      b ≠ heartbeatKeyName ∧ b ≠ stateKeyName ∧ b ≠ reportedShardsKeyName) :
    s.ghbLoop ns (st, true) l = .ok (st, true) := by
  induction l with
  | nil => rfl
  | cons kv rest ih =>
    have ht : ∀ kv ∈ rest, ∀ a b, s.parseExecutorKey ns kv.1 = some (a, b) →
        b ≠ heartbeatKeyName ∧ b ≠ stateKeyName ∧ b ≠ reportedShardsKeyName :=
      fun q hq => h q (List.mem_cons_of_mem _ hq)
    simp only [Store.ghbLoop, Store.ghbStep]
    cases hp : s.parseExecutorKey ns kv.1 with
    | none => exact ih ht
    | some ab =>
      obtain ⟨a, b⟩ := ab
      obtain ⟨n1, n2, n3⟩ := h kv (List.mem_cons_self _ _) a b hp
      simp only [n1, n2, n3, if_neg, if_false]
      exact ih ht

/-- **C3**: `RecordHeartbeat` always succeeds (it creates the executor's
keys when none exist — the starting state is arbitrary), and after any
`N ≥ 1` sequential heartbeats of one executor, `GetHeartbeat` returns
exactly the last call's timestamp, state and reported shards — never a
mix of two calls' fields. -/
theorem recordHeartbeat_lastWriteWins (s : Store) (ns eid : Str) (e : EtcdState)
    (reqs : List (Int × HeartbeatState)) (lastT : Int) (lastReq : HeartbeatState)
    (heid : '/' ∉ eid)
    (hall : ∀ r ∈ reqs, r.2.ExecutorID = eid)
    (hlast : reqs.getLast? = some (lastT, lastReq)) :
    (∀ (e' : EtcdState) (now : Int) (req : HeartbeatState),
      (s.RecordHeartbeat e' ns now req).2 = none) ∧
    s.GetHeartbeat (runHeartbeats s ns e reqs) ns eid =
      .ok { ExecutorID := eid, LastHeartbeat := lastT,
            State := lastReq.State, ReportedShards := lastReq.ReportedShards } := by
  refine ⟨fun _ _ _ => rfl, ?_⟩
  have hkvs := runHeartbeats_kvs s ns eid e reqs lastT lastReq hall hlast
  have hpr := parse_buildExecutorKey s ns eid reportedShardsKeyName heid
    keyNames_no_slash.2.2.1
  have hps := parse_buildExecutorKey s ns eid stateKeyName heid
    keyNames_no_slash.2.1
  have hph := parse_buildExecutorKey s ns eid heartbeatKeyName heid
    keyNames_no_slash.1
  simp only [Store.GetHeartbeat, hkvs]
  rw [List.filter_cons_of_pos, List.filter_cons_of_pos, List.filter_cons_of_pos]
  · simp only [List.length_cons, Nat.succ_ne_zero, if_false]
    simp only [Store.ghbLoop, Store.ghbStep, hpr, hps, hph]
    have d1 : reportedShardsKeyName ≠ heartbeatKeyName := by decide
    have d2 : reportedShardsKeyName ≠ stateKeyName := by decide
    have d3 : stateKeyName ≠ heartbeatKeyName := by decide
    simp only [d1, d2, d3, if_neg, if_false, if_pos, if_true, unmarshalReported,
      rawValue, parseInt64]
    rw [ghbLoop_irrelevant]
    · simp
    · intro kv hkv a b hp
      have hpfx0 := List.of_mem_filter hkv
      have hpfx : isPrefixL (s.buildExecutorKey ns eid []) kv.1 = true := hpfx0
      have hok0 := List.of_mem_filter (List.mem_of_mem_filter hkv)
      have hok : otherKey s ns eid kv = true := hok0
      obtain ⟨rfl, hnb, hkey⟩ := parse_under_executor s ns eid kv.1 a b heid hpfx hp
      refine ⟨?_, ?_, ?_⟩ <;> intro hb <;> subst hb <;>
        simp [otherKey, hkey] at hok
  · exact isPrefixL_ownKey s ns eid _
  · exact isPrefixL_ownKey s ns eid _
  · exact isPrefixL_ownKey s ns eid _

/-- **C3 witness**: two sequential heartbeats with different timestamp,
state and shards; the read returns exactly the second call's fields. -/
theorem recordHeartbeat_lastWriteWins_witness :
    '/' ∉ "e".data ∧
    ((∀ (e' : EtcdState) (now : Int) (req : HeartbeatState),
      ((Store.mk "p".data).RecordHeartbeat e' "n".data now req).2 = none) ∧
    (Store.mk "p".data).GetHeartbeat
      (runHeartbeats (Store.mk "p".data) "n".data ⟨[], 0⟩
        [(1, ⟨"e".data, 0, "A".data, [("s1".data, "x".data)]⟩),
         (2, ⟨"e".data, 0, "B".data, [("s2".data, "y".data)]⟩)])
      "n".data "e".data =
      .ok { ExecutorID := "e".data, LastHeartbeat := 2,
            State := "B".data,
            ReportedShards := [("s2".data, "y".data)] }) :=
  ⟨by decide,
   recordHeartbeat_lastWriteWins (Store.mk "p".data) "n".data "e".data ⟨[], 0⟩
     [(1, ⟨"e".data, 0, "A".data, [("s1".data, "x".data)]⟩),
      (2, ⟨"e".data, 0, "B".data, [("s2".data, "y".data)]⟩)]
     2 ⟨"e".data, 0, "B".data, [("s2".data, "y".data)]⟩
     (by decide) (by decide) rfl⟩

/-- The only error `GetHeartbeat`'s loop itself can produce is the
reported-shards unmarshal error. -/
theorem ghbLoop_error_unmarshal (s : Store) (ns : Str)
    (acc : HeartbeatState × Bool) (l : List (Str × EtcdValue)) (er : StoreErr)
    (h : s.ghbLoop ns acc l = .error er) : er = .unmarshalReportedShards := by
  induction l generalizing acc with
  | nil => exact absurd h (by simp [Store.ghbLoop])
  | cons kv rest ih =>
    simp only [Store.ghbLoop] at h
    cases hstep : s.ghbStep ns acc kv with
    | error e' =>
      rw [hstep] at h
      unfold Store.ghbStep at hstep
      repeat' split at hstep
      all_goals simp_all
    | ok acc' =>
      rw [hstep] at h
      exact ih acc' h

/-- A loop step on a key that parses always sets the found flag. -/
theorem ghbStep_parsed_found (s : Store) (ns : Str) (acc : HeartbeatState × Bool)
    (kv : Str × EtcdValue) (ab : Str × Str) (st2 : HeartbeatState) (f2 : Bool)
    (hp : s.parseExecutorKey ns kv.1 = some ab)
    (hstep : s.ghbStep ns acc kv = .ok (st2, f2)) : f2 = true := by
  unfold Store.ghbStep at hstep
  rw [hp] at hstep
  repeat' split at hstep
  all_goals simp_all

/-- The found flag after the loop: the starting flag, or some key parsed. -/
theorem ghbLoop_found (s : Store) (ns : Str) (st : HeartbeatState) (f : Bool)
    (l : List (Str × EtcdValue)) (st' : HeartbeatState) (f' : Bool)
    (h : s.ghbLoop ns (st, f) l = .ok (st', f')) :
    f' = (f || l.any (fun kv => (s.parseExecutorKey ns kv.1).isSome)) := by
  induction l generalizing st f with
  | nil =>
    simp only [Store.ghbLoop, Except.ok.injEq, Prod.mk.injEq] at h
    simp [h.2]
  | cons kv rest ih =>
    simp only [Store.ghbLoop] at h
    cases hstep : s.ghbStep ns (st, f) kv with
    | error e' => rw [hstep] at h; simp at h
    | ok acc' =>
      rw [hstep] at h
      obtain ⟨st2, f2⟩ := acc'
      cases hp : s.parseExecutorKey ns kv.1 with
      | none =>
        unfold Store.ghbStep at hstep
        rw [hp] at hstep
        simp only [Except.ok.injEq, Prod.mk.injEq] at hstep
        obtain ⟨h1, h2⟩ := hstep
        rw [ih _ _ h, ← h2]
        simp [List.any_cons, hp]
      | some ab =>
        have hf2 := ghbStep_parsed_found s ns (st, f) kv ab st2 f2 hp hstep
        rw [ih _ _ h, hf2]
        simp [List.any_cons, hp]

/-- When no key parses, the loop returns the accumulator untouched. -/
theorem ghbLoop_all_unparsed (s : Store) (ns : Str) (acc : HeartbeatState × Bool)
    (l : List (Str × EtcdValue))
    (h : ∀ kv ∈ l, s.parseExecutorKey ns kv.1 = none) :
    s.ghbLoop ns acc l = .ok acc := by
  induction l with
  | nil => rfl
  | cons kv rest ih =>
    simp only [Store.ghbLoop, Store.ghbStep, h kv (List.mem_cons_self _ _)]
    exact ih (fun q hq => h q (List.mem_cons_of_mem _ hq))

/-- **C7 amended**: `GetHeartbeat` returns `ExecutorNotFound` exactly when
the prefix read returns zero keys or none of the returned keys parse; when
at least one key parses, the result is never `ExecutorNotFound` — though
it is an unmarshal error (not a `HeartbeatState`) when a parsed
reported-shards value is malformed. -/
theorem getHeartbeat_notFound_iff (s : Store) (e : EtcdState) (ns eid : Str) :
    (s.GetHeartbeat e ns eid = .error .executorNotFound ↔
      (e.kvs.filter (fun kv => isPrefixL (s.buildExecutorKey ns eid []) kv.1) = [] ∨
       ∀ kv ∈ e.kvs.filter (fun kv => isPrefixL (s.buildExecutorKey ns eid []) kv.1),
         s.parseExecutorKey ns kv.1 = none)) ∧
    ((∃ kv ∈ e.kvs.filter (fun kv => isPrefixL (s.buildExecutorKey ns eid []) kv.1),
        (s.parseExecutorKey ns kv.1).isSome = true) →
      s.GetHeartbeat e ns eid ≠ .error .executorNotFound) := by
  by_cases hresp :
      e.kvs.filter (fun kv => isPrefixL (s.buildExecutorKey ns eid []) kv.1) = []
  · refine ⟨⟨fun _ => .inl hresp, fun _ => ?_⟩, fun hex => ?_⟩
    · simp [Store.GetHeartbeat, hresp]
    · obtain ⟨kv, hkv, _⟩ := hex
      rw [hresp] at hkv
      exact absurd hkv (List.not_mem_nil kv)
  · have hlen : (e.kvs.filter
        (fun kv => isPrefixL (s.buildExecutorKey ns eid []) kv.1)).length ≠ 0 :=
      fun h0 => hresp (List.length_eq_zero.mp h0)
    by_cases hall : ∀ kv ∈ e.kvs.filter
        (fun kv => isPrefixL (s.buildExecutorKey ns eid []) kv.1),
        s.parseExecutorKey ns kv.1 = none
    · have hloop := ghbLoop_all_unparsed s ns
        ({ ExecutorID := eid, LastHeartbeat := 0, State := [],
           ReportedShards := [] }, false) _ hall
      have hres : s.GetHeartbeat e ns eid = .error .executorNotFound := by
        simp [Store.GetHeartbeat, hlen, hloop]
      refine ⟨⟨fun _ => .inr hall, fun _ => hres⟩, fun hex => ?_⟩
      obtain ⟨kv, hkv, hsome⟩ := hex
      rw [hall kv hkv] at hsome
      simp at hsome
    · have hne : s.GetHeartbeat e ns eid ≠ .error .executorNotFound := by
        simp only [Store.GetHeartbeat, if_neg hlen]
        cases hloop : s.ghbLoop ns
            ({ ExecutorID := eid, LastHeartbeat := 0, State := [],
               ReportedShards := [] }, false)
            (e.kvs.filter (fun kv => isPrefixL (s.buildExecutorKey ns eid []) kv.1)) with
        | error er =>
          have := ghbLoop_error_unmarshal s ns _ _ er hloop
          subst this
          simp
        | ok acc' =>
          obtain ⟨st', f'⟩ := acc'
          have hf := ghbLoop_found s ns _ false _ st' f' hloop
          have hany : (e.kvs.filter
              (fun kv => isPrefixL (s.buildExecutorKey ns eid []) kv.1)).any
              (fun kv => (s.parseExecutorKey ns kv.1).isSome) = true := by
            rcases not_forall.mp hall with ⟨kv, hkv⟩
            rcases Classical.not_imp.mp hkv with ⟨hmem, hnp⟩
            rw [List.any_eq_true]
            exact ⟨kv, hmem, by simp [Option.isSome_iff_ne_none, hnp]⟩
          rw [hany] at hf
          simp only [Bool.or_true] at hf
          subst hf
          simp
      refine ⟨⟨fun habs => absurd habs hne, fun hor => ?_⟩, fun _ => hne⟩
      rcases hor with h | h
      · exact absurd h hresp
      · exact absurd h hall

/-- **C7 counterexample**: one valid key exists (it parses as the
executor's reported-shards key) yet the call returns neither a
`HeartbeatState` nor `ExecutorNotFound` — it fails with the unmarshal
error, refuting "when at least one valid key exists it returns a
HeartbeatState". -/
theorem getHeartbeat_malformed_counterexample :
    (Store.mk "p".data).GetHeartbeat
      ⟨[((Store.mk "p".data).buildExecutorKey "n".data "e".data reportedShardsKeyName,
         .vMalformed "oops".data)], 3⟩ "n".data "e".data =
      .error .unmarshalReportedShards ∧
    ((Store.mk "p".data).parseExecutorKey "n".data
      ((Store.mk "p".data).buildExecutorKey "n".data "e".data
        reportedShardsKeyName)).isSome = true := by
  constructor <;> decide

/-- **C7 witness**: with a single well-formed state key present the call
does not return `ExecutorNotFound` (and the iff holds concretely). -/
theorem getHeartbeat_notFound_iff_witness :
    (((Store.mk "p".data).GetHeartbeat
        ⟨[((Store.mk "p".data).buildExecutorKey "n".data "e".data stateKeyName,
           .vStr "A".data)], 3⟩ "n".data "e".data = .error .executorNotFound ↔
      ((⟨[((Store.mk "p".data).buildExecutorKey "n".data "e".data stateKeyName,
           .vStr "A".data)], 3⟩ : EtcdState).kvs.filter
          (fun kv => isPrefixL ((Store.mk "p".data).buildExecutorKey "n".data
            "e".data []) kv.1) = [] ∨
       ∀ kv ∈ (⟨[((Store.mk "p".data).buildExecutorKey "n".data "e".data stateKeyName,
           .vStr "A".data)], 3⟩ : EtcdState).kvs.filter
          (fun kv => isPrefixL ((Store.mk "p".data).buildExecutorKey "n".data
            "e".data []) kv.1),
         (Store.mk "p".data).parseExecutorKey "n".data kv.1 = none)) ∧
    ((∃ kv ∈ (⟨[((Store.mk "p".data).buildExecutorKey "n".data "e".data stateKeyName,
           .vStr "A".data)], 3⟩ : EtcdState).kvs.filter
          (fun kv => isPrefixL ((Store.mk "p".data).buildExecutorKey "n".data
            "e".data []) kv.1),
        ((Store.mk "p".data).parseExecutorKey "n".data kv.1).isSome = true) →
      (Store.mk "p".data).GetHeartbeat
        ⟨[((Store.mk "p".data).buildExecutorKey "n".data "e".data stateKeyName,
           .vStr "A".data)], 3⟩ "n".data "e".data ≠ .error .executorNotFound)) :=
  getHeartbeat_notFound_iff (Store.mk "p".data)
    ⟨[((Store.mk "p".data).buildExecutorKey "n".data "e".data stateKeyName,
       .vStr "A".data)], 3⟩ "n".data "e".data

/-! ### GetState invariants: association-map lemmas -/

theorem alookup_aset_self {α : Type} (m : List (Str × α)) (k : Str) (v : α) :
    alookup (aset m k v) k = some v := by
  induction m with
  | nil => simp [aset, alookup]
  | cons e rest ih =>
    by_cases he : e.1 = k
    · simp [aset, alookup, he]
    · simp [aset, alookup, he, ih]

theorem alookup_aset_ne {α : Type} (m : List (Str × α)) (k k' : Str) (v : α)
    (h : k' ≠ k) : alookup (aset m k v) k' = alookup m k' := by
  have h2 : ¬(k = k') := fun hh => h hh.symm
  induction m with
  | nil => simp [aset, alookup, h2]
  | cons e rest ih =>
    by_cases he : e.1 = k
    · simp [aset, alookup, he, h2]
    · by_cases he' : e.1 = k'
      · simp [aset, alookup, he, he', h]
      · simp [aset, alookup, he, he', ih]

theorem alookup_none_iff {α : Type} (m : List (Str × α)) (k : Str) :
    alookup m k = none ↔ k ∉ m.map Prod.fst := by
  induction m with
  | nil => exact ⟨fun _ h => List.not_mem_nil k h, fun _ => rfl⟩
  | cons e rest ih =>
    by_cases he : e.1 = k
    · have hval : alookup (e :: rest) k = some e.2 := by
        show (if e.1 = k then some e.2 else alookup rest k) = some e.2
        rw [if_pos he]
      rw [hval]
      constructor
      · intro habs
        exact absurd habs (Option.some_ne_none e.2)
      · intro hnot
        have hmem : k ∈ List.map Prod.fst (e :: rest) := by
          rw [List.map_cons, he]
          exact List.mem_cons_self k _
        exact (hnot hmem).elim
    · have he' : ¬(k = e.1) := fun hh => he hh.symm
      simp only [alookup, if_neg he, List.map_cons, List.mem_cons, ih]
      constructor
      · rintro hnot (h1 | h2)
        · exact he' h1
        · exact hnot h2
      · intro hnot h2
        exact hnot (Or.inr h2)

/-- `aset` at one key keeps two maps' key columns aligned. -/
theorem keys_aset_pair {α β : Type} (hbs : List (Str × α)) (asgs : List (Str × β))
    (eid : Str) (hk : hbs.map Prod.fst = asgs.map Prod.fst) (x : α) (y : β) :
    (aset hbs eid x).map Prod.fst = (aset asgs eid y).map Prod.fst := by
  induction hbs generalizing asgs with
  | nil =>
    have hnil : asgs = [] := List.map_eq_nil_iff.mp hk.symm
    subst hnil
    simp [aset]
  | cons e rest ih =>
    cases asgs with
    | nil => simp at hk
    | cons f rest' =>
      simp only [List.map_cons, List.cons.injEq] at hk
      obtain ⟨h1, h2⟩ := hk
      by_cases he : e.1 = eid
      · have hf : f.1 = eid := h1 ▸ he
        simp [aset, he, hf, h2]
      · have hf : ¬(f.1 = eid) := fun hh => he (h1 ▸ hh)
        simp [aset, he, hf, h1, ih rest' h2]

/-- Creating the zero entries keeps the two key columns aligned. -/
theorem ensureEntries_keys (hbs : List (Str × HeartbeatState))
    (asgs : List (Str × AssignedState)) (eid : Str)
    (hk : hbs.map Prod.fst = asgs.map Prod.fst) :
    (ensureEntries (hbs, asgs) eid).1.map Prod.fst =
      (ensureEntries (hbs, asgs) eid).2.map Prod.fst := by
  unfold ensureEntries
  by_cases hn : alookup hbs eid = none
  · have hn2 : alookup asgs eid = none := by
      rw [alookup_none_iff] at hn ⊢
      rw [← hk]
      exact hn
    simp only [hn, hn2, Option.isNone_none, if_true]
    exact keys_aset_pair hbs asgs eid hk _ _
  · have hn2 : ¬(alookup asgs eid = none) := by
      rw [alookup_none_iff] at hn ⊢
      rw [← hk]
      exact hn
    obtain ⟨v, hv⟩ := Option.ne_none_iff_exists'.mp hn
    obtain ⟨w, hw⟩ := Option.ne_none_iff_exists'.mp hn2
    simp only [hv, hw, Option.isNone_some]
    exact hk

/-- A loop step preserves key-column alignment of the two maps. -/
theorem gsStep_keys (s : Store) (ns : Str)
    (hbs : List (Str × HeartbeatState)) (asgs : List (Str × AssignedState))
    (hbs' : List (Str × HeartbeatState)) (asgs' : List (Str × AssignedState))
    (kv : Str × EtcdValue)
    (hk : hbs.map Prod.fst = asgs.map Prod.fst)
    (h : s.gsStep ns (hbs, asgs) kv = .ok (hbs', asgs')) :
    hbs'.map Prod.fst = asgs'.map Prod.fst := by
  cases hp : s.parseExecutorKey ns kv.1 with
  | none =>
    unfold Store.gsStep at h
    rw [hp] at h
    simp only [Except.ok.injEq, Prod.mk.injEq] at h
    obtain ⟨h1, h2⟩ := h
    subst h1; subst h2
    exact hk
  | some ab =>
    obtain ⟨eid, kt⟩ := ab
    have hkE := ensureEntries_keys hbs asgs eid hk
    simp only [Store.gsStep, hp] at h
    repeat' split at h
    all_goals simp only [Except.ok.injEq, Prod.mk.injEq, reduceCtorEq] at h
    all_goals obtain ⟨h1, h2⟩ := h
    all_goals subst h1
    all_goals subst h2
    all_goals exact keys_aset_pair _ _ eid hkE _ _

theorem ensureEntries_snd (hbs : List (Str × HeartbeatState))
    (asgs : List (Str × AssignedState)) (eid : Str) :
    (ensureEntries (hbs, asgs) eid).2 =
      if (alookup asgs eid).isNone then aset asgs eid (emptyAssigned eid)
      else asgs := rfl

theorem ensure2_lookup_ne (hbs : List (Str × HeartbeatState))
    (asgs : List (Str × AssignedState)) (eid x : Str) (hne : x ≠ eid) :
    alookup (ensureEntries (hbs, asgs) eid).2 x = alookup asgs x := by
  rw [ensureEntries_snd]
  by_cases hn : (alookup asgs eid).isNone = true
  · rw [if_pos hn]
    exact alookup_aset_ne _ _ _ _ hne
  · rw [if_neg hn]

theorem ensure2_lookup_self (hbs : List (Str × HeartbeatState))
    (asgs : List (Str × AssignedState)) (eid : Str) :
    alookup (ensureEntries (hbs, asgs) eid).2 eid =
      some ((alookup asgs eid).getD (emptyAssigned eid)) := by
  rw [ensureEntries_snd]
  cases hv : alookup asgs eid with
  | none =>
    rw [if_pos (by simp [hv])]
    rw [alookup_aset_self]
    rfl
  | some w =>
    rw [if_neg (by simp [hv])]
    rw [hv]
    rfl

/-- A loop step on a key that is not executor `x`'s reported-shards key
preserves "x's ReportedShards entry, if present, is empty". -/
theorem gsStep_absent_RS (s : Store) (ns : Str)
    (hbs : List (Str × HeartbeatState)) (asgs : List (Str × AssignedState))
    (hbs' : List (Str × HeartbeatState)) (asgs' : List (Str × AssignedState))
    (kv : Str × EtcdValue) (x : Str)
    (hnot : s.parseExecutorKey ns kv.1 ≠ some (x, reportedShardsKeyName))
    (hprev : ∀ a, alookup asgs x = some a → a.ReportedShards = [])
    (h : s.gsStep ns (hbs, asgs) kv = .ok (hbs', asgs')) :
    ∀ a, alookup asgs' x = some a → a.ReportedShards = [] := by
  cases hp : s.parseExecutorKey ns kv.1 with
  | none =>
    unfold Store.gsStep at h
    rw [hp] at h
    simp only [Except.ok.injEq, Prod.mk.injEq] at h
    obtain ⟨h1, h2⟩ := h
    subst h2
    exact hprev
  | some ab =>
    obtain ⟨eid, kt⟩ := ab
    simp only [Store.gsStep, hp] at h
    have hRS : ((alookup asgs x).getD (emptyAssigned x)).ReportedShards = [] := by
      cases hv : alookup asgs x with
      | none => rfl
      | some w => exact hprev w hv
    by_cases hx : x = eid
    · subst hx
      have hself := ensure2_lookup_self hbs asgs x
      by_cases k1 : kt = heartbeatKeyName
      · rw [if_pos k1] at h
        simp only [Except.ok.injEq, Prod.mk.injEq] at h
        obtain ⟨h1, h2⟩ := h
        subst h2
        intro a ha
        rw [alookup_aset_self] at ha
        injection ha with ha2
        subst ha2
        rw [hself]
        simpa using hRS
      · rw [if_neg k1] at h
        by_cases k2 : kt = stateKeyName
        · rw [if_pos k2] at h
          simp only [Except.ok.injEq, Prod.mk.injEq] at h
          obtain ⟨h1, h2⟩ := h
          subst h2
          intro a ha
          rw [alookup_aset_self] at ha
          injection ha with ha2
          subst ha2
          rw [hself]
          simpa using hRS
        · rw [if_neg k2] at h
          by_cases k3 : kt = reportedShardsKeyName
          · rw [k3] at hp
            exact absurd hp hnot
          · rw [if_neg k3] at h
            by_cases k4 : kt = assignedShardsKeyName
            · rw [if_pos k4] at h
              cases hu : unmarshalAssigned kv.2 with
              | none =>
                rw [hu] at h
                exact absurd h (by simp)
              | some m =>
                rw [hu] at h
                simp only [Except.ok.injEq, Prod.mk.injEq] at h
                obtain ⟨h1, h2⟩ := h
                subst h2
                intro a ha
                rw [alookup_aset_self] at ha
                injection ha with ha2
                subst ha2
                rw [hself]
                simpa using hRS
            · rw [if_neg k4] at h
              simp only [Except.ok.injEq, Prod.mk.injEq] at h
              obtain ⟨h1, h2⟩ := h
              subst h2
              intro a ha
              rw [alookup_aset_self] at ha
              injection ha with ha2
              subst ha2
              rw [hself]
              simpa using hRS
    · repeat' split at h
      all_goals simp only [Except.ok.injEq, Prod.mk.injEq, reduceCtorEq] at h
      all_goals obtain ⟨h1, h2⟩ := h
      all_goals subst h2
      all_goals intro a ha
      all_goals rw [alookup_aset_ne _ _ _ _ hx, ensure2_lookup_ne _ _ _ _ hx] at ha
      all_goals exact hprev a ha

/-- A loop step on a key that is not executor `x`'s assigned-shards key
preserves "x's AssignedShards entry, if present, is empty". -/
theorem gsStep_absent_AS (s : Store) (ns : Str)
    (hbs : List (Str × HeartbeatState)) (asgs : List (Str × AssignedState))
    (hbs' : List (Str × HeartbeatState)) (asgs' : List (Str × AssignedState))
    (kv : Str × EtcdValue) (x : Str)
    (hnot : s.parseExecutorKey ns kv.1 ≠ some (x, assignedShardsKeyName))
    (hprev : ∀ a, alookup asgs x = some a → a.AssignedShards = [])
    (h : s.gsStep ns (hbs, asgs) kv = .ok (hbs', asgs')) :
    ∀ a, alookup asgs' x = some a → a.AssignedShards = [] := by
  cases hp : s.parseExecutorKey ns kv.1 with
  | none =>
    unfold Store.gsStep at h
    rw [hp] at h
    simp only [Except.ok.injEq, Prod.mk.injEq] at h
    obtain ⟨h1, h2⟩ := h
    subst h2
    exact hprev
  | some ab =>
    obtain ⟨eid, kt⟩ := ab
    simp only [Store.gsStep, hp] at h
    have hAS : ((alookup asgs x).getD (emptyAssigned x)).AssignedShards = [] := by
      cases hv : alookup asgs x with
      | none => rfl
      | some w => exact hprev w hv
    by_cases hx : x = eid
    · subst hx
      have hself := ensure2_lookup_self hbs asgs x
      by_cases k1 : kt = heartbeatKeyName
      · rw [if_pos k1] at h
        simp only [Except.ok.injEq, Prod.mk.injEq] at h
        obtain ⟨h1, h2⟩ := h
        subst h2
        intro a ha
        rw [alookup_aset_self] at ha
        injection ha with ha2
        subst ha2
        rw [hself]
        simpa using hAS
      · rw [if_neg k1] at h
        by_cases k2 : kt = stateKeyName
        · rw [if_pos k2] at h
          simp only [Except.ok.injEq, Prod.mk.injEq] at h
          obtain ⟨h1, h2⟩ := h
          subst h2
          intro a ha
          rw [alookup_aset_self] at ha
          injection ha with ha2
          subst ha2
          rw [hself]
          simpa using hAS
        · rw [if_neg k2] at h
          by_cases k3 : kt = reportedShardsKeyName
          · rw [if_pos k3] at h
            cases hu : unmarshalReported kv.2 with
            | none =>
              rw [hu] at h
              exact absurd h (by simp)
            | some m =>
              rw [hu] at h
              simp only [Except.ok.injEq, Prod.mk.injEq] at h
              obtain ⟨h1, h2⟩ := h
              subst h2
              intro a ha
              rw [alookup_aset_self] at ha
              injection ha with ha2
              subst ha2
              rw [hself]
              simpa using hAS
          · rw [if_neg k3] at h
            by_cases k4 : kt = assignedShardsKeyName
            · rw [k4] at hp
              exact absurd hp hnot
            · rw [if_neg k4] at h
              simp only [Except.ok.injEq, Prod.mk.injEq] at h
              obtain ⟨h1, h2⟩ := h
              subst h2
              intro a ha
              rw [alookup_aset_self] at ha
              injection ha with ha2
              subst ha2
              rw [hself]
              simpa using hAS
    · repeat' split at h
      all_goals simp only [Except.ok.injEq, Prod.mk.injEq, reduceCtorEq] at h
      all_goals obtain ⟨h1, h2⟩ := h
      all_goals subst h2
      all_goals intro a ha
      all_goals rw [alookup_aset_ne _ _ _ _ hx, ensure2_lookup_ne _ _ _ _ hx] at ha
      all_goals exact hprev a ha

/-- The loop preserves key-column alignment. -/
theorem gsLoop_keys (s : Store) (ns : Str) (l : List (Str × EtcdValue))
    (hbs : List (Str × HeartbeatState)) (asgs : List (Str × AssignedState))
    (hbs' : List (Str × HeartbeatState)) (asgs' : List (Str × AssignedState))
    (hk : hbs.map Prod.fst = asgs.map Prod.fst)
    (h : s.gsLoop ns (hbs, asgs) l = .ok (hbs', asgs')) :
    hbs'.map Prod.fst = asgs'.map Prod.fst := by
  induction l generalizing hbs asgs with
  | nil =>
    simp only [Store.gsLoop, Except.ok.injEq, Prod.mk.injEq] at h
    obtain ⟨h1, h2⟩ := h
    subst h1; subst h2
    exact hk
  | cons kv rest ih =>
    simp only [Store.gsLoop] at h
    cases hstep : s.gsStep ns (hbs, asgs) kv with
    | error er => rw [hstep] at h; simp at h
    | ok acc' =>
      rw [hstep] at h
      obtain ⟨h1, a1⟩ := acc'
      exact ih h1 a1 (gsStep_keys s ns hbs asgs h1 a1 kv hk hstep) h

/-- The loop preserves emptiness of an executor's ReportedShards entry as
long as no processed key is that executor's reported-shards key. -/
theorem gsLoop_absent_RS (s : Store) (ns : Str) (l : List (Str × EtcdValue))
    (hbs : List (Str × HeartbeatState)) (asgs : List (Str × AssignedState))
    (hbs' : List (Str × HeartbeatState)) (asgs' : List (Str × AssignedState))
    (x : Str)
    (hnot : ∀ kv ∈ l, s.parseExecutorKey ns kv.1 ≠ some (x, reportedShardsKeyName))
    (hprev : ∀ a, alookup asgs x = some a → a.ReportedShards = [])
    (h : s.gsLoop ns (hbs, asgs) l = .ok (hbs', asgs')) :
    ∀ a, alookup asgs' x = some a → a.ReportedShards = [] := by
  induction l generalizing hbs asgs with
  | nil =>
    simp only [Store.gsLoop, Except.ok.injEq, Prod.mk.injEq] at h
    obtain ⟨h1, h2⟩ := h
    subst h2
    exact hprev
  | cons kv rest ih =>
    simp only [Store.gsLoop] at h
    cases hstep : s.gsStep ns (hbs, asgs) kv with
    | error er => rw [hstep] at h; simp at h
    | ok acc' =>
      rw [hstep] at h
      obtain ⟨h1, a1⟩ := acc'
      exact ih h1 a1 (fun q hq => hnot q (List.mem_cons_of_mem _ hq))
        (gsStep_absent_RS s ns hbs asgs h1 a1 kv x
          (hnot kv (List.mem_cons_self _ _)) hprev hstep) h

/-- The loop preserves emptiness of an executor's AssignedShards entry as
long as no processed key is that executor's assigned-shards key. -/
theorem gsLoop_absent_AS (s : Store) (ns : Str) (l : List (Str × EtcdValue))
    (hbs : List (Str × HeartbeatState)) (asgs : List (Str × AssignedState))
    (hbs' : List (Str × HeartbeatState)) (asgs' : List (Str × AssignedState))
    (x : Str)
    (hnot : ∀ kv ∈ l, s.parseExecutorKey ns kv.1 ≠ some (x, assignedShardsKeyName))
    (hprev : ∀ a, alookup asgs x = some a → a.AssignedShards = [])
    (h : s.gsLoop ns (hbs, asgs) l = .ok (hbs', asgs')) :
    ∀ a, alookup asgs' x = some a → a.AssignedShards = [] := by
  induction l generalizing hbs asgs with
  | nil =>
    simp only [Store.gsLoop, Except.ok.injEq, Prod.mk.injEq] at h
    obtain ⟨h1, h2⟩ := h
    subst h2
    exact hprev
  | cons kv rest ih =>
    simp only [Store.gsLoop] at h
    cases hstep : s.gsStep ns (hbs, asgs) kv with
    | error er => rw [hstep] at h; simp at h
    | ok acc' =>
      rw [hstep] at h
      obtain ⟨h1, a1⟩ := acc'
      exact ih h1 a1 (fun q hq => hnot q (List.mem_cons_of_mem _ hq))
        (gsStep_absent_AS s ns hbs asgs h1 a1 kv x
          (hnot kv (List.mem_cons_self _ _)) hprev hstep) h

/-- **C9**: a successful `GetState` returns two maps with identical key
columns (every executor present in one is present in the other), and an
executor whose reported-shards (resp. assigned-shards) key is absent from
the prefix read has that field initialized to the empty map in its
`AssignedState`. -/
theorem getState_maps_aligned (s : Store) (e : EtcdState) (ns : Str)
    (hbs : List (Str × HeartbeatState)) (asgs : List (Str × AssignedState))
    (rev : Int)
    (h : s.GetState e ns = .ok (hbs, asgs, rev)) :
    hbs.map Prod.fst = asgs.map Prod.fst ∧
    ∀ x a, alookup asgs x = some a →
      ((∀ kv ∈ e.kvs.filter (fun kv => isPrefixL (s.buildExecutorPrefix ns) kv.1),
          s.parseExecutorKey ns kv.1 ≠ some (x, reportedShardsKeyName)) →
        a.ReportedShards = []) ∧
      ((∀ kv ∈ e.kvs.filter (fun kv => isPrefixL (s.buildExecutorPrefix ns) kv.1),
          s.parseExecutorKey ns kv.1 ≠ some (x, assignedShardsKeyName)) →
        a.AssignedShards = []) := by
  simp only [Store.GetState] at h
  cases hloop : s.gsLoop ns ([], [])
      (e.kvs.filter (fun kv => isPrefixL (s.buildExecutorPrefix ns) kv.1)) with
  | error er => rw [hloop] at h; simp at h
  | ok acc' =>
    rw [hloop] at h
    obtain ⟨h1, a1⟩ := acc'
    simp only [Except.ok.injEq, Prod.mk.injEq] at h
    obtain ⟨hh, ha, hr⟩ := h
    subst hh
    subst ha
    refine ⟨gsLoop_keys s ns _ [] [] _ _ rfl hloop, ?_⟩
    intro x a hax
    constructor
    · intro hnot
      exact gsLoop_absent_RS s ns _ [] [] _ _ x hnot
        (fun a' ha' => Option.noConfusion ha') hloop a hax
    · intro hnot
      exact gsLoop_absent_AS s ns _ [] [] _ _ x hnot
        (fun a' ha' => Option.noConfusion ha') hloop a hax

/-- **C9 witness**: one executor with only a heartbeat key — both maps
have key column `["e"]` and the `AssignedState` holds two empty maps. -/
theorem getState_maps_aligned_witness :
    ([("e".data, (⟨"e".data, 5, [], []⟩ : HeartbeatState))].map Prod.fst =
       ([("e".data, (⟨"e".data, [], []⟩ : AssignedState))].map Prod.fst) ∧
     ∀ x a, alookup [("e".data, (⟨"e".data, [], []⟩ : AssignedState))] x = some a →
      ((∀ kv ∈ (⟨[((Store.mk "p".data).buildExecutorKey "n".data "e".data
              heartbeatKeyName, .vInt 5)], 3⟩ : EtcdState).kvs.filter
            (fun kv => isPrefixL ((Store.mk "p".data).buildExecutorPrefix "n".data)
              kv.1),
          (Store.mk "p".data).parseExecutorKey "n".data kv.1 ≠
            some (x, reportedShardsKeyName)) →
        a.ReportedShards = []) ∧
      ((∀ kv ∈ (⟨[((Store.mk "p".data).buildExecutorKey "n".data "e".data
              heartbeatKeyName, .vInt 5)], 3⟩ : EtcdState).kvs.filter
            (fun kv => isPrefixL ((Store.mk "p".data).buildExecutorPrefix "n".data)
              kv.1),
          (Store.mk "p".data).parseExecutorKey "n".data kv.1 ≠
            some (x, assignedShardsKeyName)) →
        a.AssignedShards = [])) :=
  getState_maps_aligned (Store.mk "p".data)
    ⟨[((Store.mk "p".data).buildExecutorKey "n".data "e".data heartbeatKeyName,
       .vInt 5)], 3⟩ "n".data
    [("e".data, ⟨"e".data, 5, [], []⟩)] [("e".data, ⟨"e".data, [], []⟩)] 3 rfl

/-- **C10**: a malformed stored heartbeat-timestamp value is silently
tolerated — the parse error is discarded and `LastHeartbeat` is reported
as 0 with no error — by both `GetHeartbeat` and `GetState`; a malformed
reported-shards or assigned-shards value makes the whole call fail with
the corresponding unmarshal error. -/
theorem malformed_tolerance (s : Store) (ns eid bad : Str) (rv : Int)
    (heid : '/' ∉ eid) :
    s.GetHeartbeat
        ⟨[(s.buildExecutorKey ns eid heartbeatKeyName, .vMalformed bad)], rv⟩
        ns eid = .ok ⟨eid, 0, [], []⟩ ∧
    s.GetState
        ⟨[(s.buildExecutorKey ns eid heartbeatKeyName, .vMalformed bad)], rv⟩
        ns = .ok ([(eid, emptyHeartbeat eid)], [(eid, emptyAssigned eid)], rv) ∧
    s.GetHeartbeat
        ⟨[(s.buildExecutorKey ns eid reportedShardsKeyName, .vMalformed bad)], rv⟩
        ns eid = .error .unmarshalReportedShards ∧
    s.GetState
        ⟨[(s.buildExecutorKey ns eid reportedShardsKeyName, .vMalformed bad)], rv⟩
        ns = .error .unmarshalReportedShards ∧
    s.GetState
        ⟨[(s.buildExecutorKey ns eid assignedShardsKeyName, .vMalformed bad)], rv⟩
        ns = .error .unmarshalAssignedShards := by
  have hp_h := parse_buildExecutorKey s ns eid heartbeatKeyName heid
    keyNames_no_slash.1
  have hp_r := parse_buildExecutorKey s ns eid reportedShardsKeyName heid
    keyNames_no_slash.2.2.1
  have hp_a := parse_buildExecutorKey s ns eid assignedShardsKeyName heid
    keyNames_no_slash.2.2.2
  have hpfxNP : ∀ kt, isPrefixL (s.buildExecutorPrefix ns)
      (s.buildExecutorKey ns eid kt) = true := fun kt => by
    rw [buildExecutorKey_eq]
    exact isPrefixL_append _ _
  have d1 : ¬(reportedShardsKeyName = heartbeatKeyName) := by decide
  have d2 : ¬(reportedShardsKeyName = stateKeyName) := by decide
  have d3 : ¬(assignedShardsKeyName = heartbeatKeyName) := by decide
  have d4 : ¬(assignedShardsKeyName = stateKeyName) := by decide
  have d5 : ¬(assignedShardsKeyName = reportedShardsKeyName) := by decide
  refine ⟨?_, ?_, ?_, ?_, ?_⟩
  · simp [Store.GetHeartbeat, Store.ghbLoop, Store.ghbStep,
      isPrefixL_ownKey, hp_h, parseInt64]
  · simp [Store.GetState, Store.gsLoop, Store.gsStep, hpfxNP, hp_h,
      ensureEntries, alookup, aset, emptyHeartbeat, emptyAssigned, parseInt64]
  · simp [Store.GetHeartbeat, Store.ghbLoop, Store.ghbStep,
      isPrefixL_ownKey, hp_r, d1, d2, unmarshalReported]
  · simp [Store.GetState, Store.gsLoop, Store.gsStep, hpfxNP, hp_r, d1, d2,
      ensureEntries, alookup, aset, unmarshalReported]
  · simp [Store.GetState, Store.gsLoop, Store.gsStep, hpfxNP, hp_a, d3, d4, d5,
      ensureEntries, alookup, aset, unmarshalAssigned]

/-- **C10 witness**: concrete malformed bytes "xyz" under a concrete
store. -/
theorem malformed_tolerance_witness :
    '/' ∉ "e".data ∧
    ((Store.mk "p".data).GetHeartbeat
        ⟨[((Store.mk "p".data).buildExecutorKey "n".data "e".data heartbeatKeyName,
           .vMalformed "xyz".data)], 9⟩
        "n".data "e".data = .ok ⟨"e".data, 0, [], []⟩ ∧
     (Store.mk "p".data).GetState
        ⟨[((Store.mk "p".data).buildExecutorKey "n".data "e".data heartbeatKeyName,
           .vMalformed "xyz".data)], 9⟩
        "n".data = .ok ([("e".data, emptyHeartbeat "e".data)],
          [("e".data, emptyAssigned "e".data)], 9) ∧
     (Store.mk "p".data).GetHeartbeat
        ⟨[((Store.mk "p".data).buildExecutorKey "n".data "e".data
            reportedShardsKeyName, .vMalformed "xyz".data)], 9⟩
        "n".data "e".data = .error .unmarshalReportedShards ∧
     (Store.mk "p".data).GetState
        ⟨[((Store.mk "p".data).buildExecutorKey "n".data "e".data
            reportedShardsKeyName, .vMalformed "xyz".data)], 9⟩
        "n".data = .error .unmarshalReportedShards ∧
     (Store.mk "p".data).GetState
        ⟨[((Store.mk "p".data).buildExecutorKey "n".data "e".data
            assignedShardsKeyName, .vMalformed "xyz".data)], 9⟩
        "n".data = .error .unmarshalAssignedShards) :=
  ⟨by decide,
   malformed_tolerance (Store.mk "p".data) "n".data "e".data "xyz".data 9
     (by decide)⟩
